import Mathlib

/-!
Shallow embedding of the two browser applications in `public_html`
(the voice storyteller under `storytelling/` and the recipe generator
under `aicook/`), together with proofs about the embedded operations.

The JavaScript sources are translated function by function:
mutable module state becomes explicit state records, DOM reads become
function parameters, `fetch` responses become explicit `HttpResponse`
values, and thrown exceptions become `Except.error`.
-/

set_option maxRecDepth 4000

namespace PublicHtml

/-! ## Small list utilities (decidable substring test) -/

/-- `isPre pat l` is true when `pat` is an initial segment of `l`. -/
def isPre : List Char → List Char → Bool
  | [], _ => true
  | _ :: _, [] => false
  | p :: ps, c :: cs => p == c && isPre ps cs

/-- `hasInfix l pat` is true when `pat` occurs contiguously inside `l`. -/
def hasInfix (l pat : List Char) : Bool :=
  isPre pat l ||
    match l with
    | [] => false
    | _ :: rest => hasInfix rest pat

/-- Substring test on strings, via the underlying character lists. -/
def strContains (s pat : String) : Bool :=
  hasInfix s.data pat.data

theorem isPre_append (p t : List Char) : isPre p (p ++ t) = true := by
  induction p with
  | nil => rfl
  | cons c cs ih => simp [isPre, ih]

theorem isPre_exists {p l : List Char} (h : isPre p l = true) :
    ∃ t, l = p ++ t := by
  induction p generalizing l with
  | nil => exact ⟨l, rfl⟩
  | cons c cs ih =>
    cases l with
    | nil => simp [isPre] at h
    | cons d ds =>
      simp only [isPre, Bool.and_eq_true, beq_iff_eq] at h
      obtain ⟨t, ht⟩ := ih h.2
      exact ⟨t, by simp [h.1, ht]⟩

/-! ## Storyteller model (`storytelling/model.js`)

Module-level mutable variables of `model.js` become the fields of
`StoryModel`; each exported function becomes a pure transition that
returns the updated state together with the value the function returns. -/

structure StoryModel where
  story : String
  initialStory : String
  currentLanguage : String
  currentLanguageName : String
  geminiApiKeyVar : String
deriving Repr, DecidableEq

/-- `appendLine(role, text)`: `story += "\n" + role + ": " + text; return story`. -/
def appendLine (st : StoryModel) (role text : String) : StoryModel × String :=
  let s := st.story ++ "\n" ++ role ++ ": " ++ text
  ({ st with story := s }, s)

/-- `getStory()`. -/
def getStory (st : StoryModel) : String := st.story

/-- `setLanguage(lang, name)`. -/
def setLanguage (st : StoryModel) (lang name : String) : StoryModel :=
  { st with currentLanguage := lang, currentLanguageName := name }

/-- `getLanguage()`. -/
def getLanguage (st : StoryModel) : String × String :=
  (st.currentLanguage, st.currentLanguageName)

/-- `resetStory()`: `story = initialStory; return story`. -/
def resetStory (st : StoryModel) : StoryModel × String :=
  ({ st with story := st.initialStory }, st.initialStory)

/-- `initializeStory(initialText)`: sets both `story` and `initialStory`. -/
def initializeStory (st : StoryModel) (initialText : String) : StoryModel × String :=
  ({ st with story := initialText, initialStory := initialText }, initialText)

/-- The operations exported by `model.js`, as a syntactic type.
`genStory` carries the api-key text read from the DOM, which is the only
module state `generateStory` writes. -/
inductive StoryOp where
  | append (role text : String)
  | reset
  | initStory (t : String)
  | readStory
  | setLang (lang name : String)
  | readLang
  | genStory (apiKeyInput : String)
deriving Repr, DecidableEq

/-- State effect of each exported operation of `model.js`. -/
def storyStep (st : StoryModel) : StoryOp → StoryModel
  | .append role text => (appendLine st role text).1
  | .reset => (resetStory st).1
  | .initStory t => (initializeStory st t).1
  | .readStory => st
  | .setLang l n => setLanguage st l n
  | .readLang => st
  | .genStory k => { st with geminiApiKeyVar := k }

theorem appendLine_initialStory (st : StoryModel) (role text : String) :
    (appendLine st role text).1.initialStory = st.initialStory := rfl

/-- Folding a sequence of `appendLine` calls never touches `initialStory`. -/
theorem foldl_appendLine_initialStory (ops : List (String × String)) (st : StoryModel) :
    (ops.foldl (fun a p => (appendLine a p.1 p.2).1) st).initialStory = st.initialStory := by
  induction ops generalizing st with
  | nil => rfl
  | cons hd tl ih => simpa [appendLine] using ih _

/-! ## Recipe app (`aicook/script.js`) -/

/-- JavaScript `String.prototype.trim` whitespace class (the characters
relevant to this code base). -/
def isJsWs (c : Char) : Bool :=
  c == ' ' || c == '\t' || c == '\n' || c == '\r' ||
    c == '\x0b' || c == '\x0c' || c == '\u00A0'

/-- JavaScript `trim`: strip `isJsWs` characters from both ends. -/
def jsTrim (s : String) : String :=
  String.mk (((s.data.dropWhile isJsWs).reverse.dropWhile isJsWs).reverse)

/-- Truthiness of a JS field that is either `undefined` (`none`) or a
string: `undefined` and the empty string are falsy. -/
def truthyOptStr : Option String → Bool
  | none => false
  | some s => s != ""

/-- The `AICookApp` instance fields that the credential logic touches.
The constructor writes `this.apikey` (lower-case `k`, line 3 of
`script.js`) while `loadApiKey`, `saveApiKey` and `generateRecipe` all
read or write `this.apiKey`; the two are distinct properties, so both
appear here.  `apiKey = none` models the JS value `undefined`. -/
structure CookApp where
  apikey : String
  apiKey : Option String
deriving Repr, DecidableEq

/-- `new AICookApp()` given the persisted `localStorage` entry under
`"geminiApiKey"`: sets `this.apikey = localStorage.getItem(..) || ""`
and never assigns `this.apiKey`. -/
def constructApp (storedKey : Option String) : CookApp :=
  { apikey := storedKey.getD "", apiKey := none }

/-- `loadApiKey()`: its guard `if (this.apiKey)`.  Returns whether the
saved-key UI branch (populate input, mark saved) runs. -/
def loadApiKey (app : CookApp) : Bool :=
  truthyOptStr app.apiKey

/-- `saveApiKey()` acting on the app fields, the persisted
`localStorage` entry and the text field value; the third component is
the alert message surfaced to the user, if any. -/
def saveApiKey (app : CookApp) (storage : Option String) (inputValue : String) :
    CookApp × Option String × Option String :=
  let k := jsTrim inputValue
  if k = "" then
    (app, storage, some "please enter your Gemini API Key")
  else
    ({ app with apiKey := some k }, some k, none)

/-- The fixed tail of the recipe prompt (template literal, lines
105–116 of `script.js`), byte for byte. -/
def promptTail : String :=
  "\n\n    Please format your response as follows:\n     - recipe name \n     - prep time\n     - cook time\n     - servings\n     - ingredients (with quantities)\n     - instructions (numbered steps)\n     - tips (optional)\n\n     Make sure the recipe is practical and delicious!"

/-- Prompt assembly in `callGeminiAPI` (lines 97–116). -/
def buildPrompt (ingredients dietary cuisine : String) : String :=
  "Create a detailed recipe using these ingredients: " ++ ingredients
    ++ (if dietary != "" then " Make it " ++ dietary ++ "." else "")
    ++ (if cuisine != "" then " The cuisine style chould be " ++ cuisine ++ "." else "")
    ++ promptTail

/-- Endpoint URL built in `callGeminiAPI` (line 118). -/
def geminiUrl (key : String) : String :=
  "https://generativelanguage.googleapis.com/v1beta/models/gemini-1.5-flash-latest:generateContent?key="
    ++ key

/-- Result of the input-validation part of `generateRecipe`: either an
alert message or the outgoing request (URL and prompt). -/
inductive RecipeOutcome where
  | configError (msg : String)
  | request (url : String) (prompt : String)
deriving Repr, DecidableEq

/-- `generateRecipe()` up to the point the HTTP request is issued:
the two `showError` early returns and the request assembled by
`callGeminiAPI` from `this.apiKey` and the three form fields. -/
def generateRecipe (app : CookApp) (ingredientsInput dietary cuisine : String) :
    RecipeOutcome :=
  if !truthyOptStr app.apiKey then
    .configError "please enter your Gemini API Key"
  else
    let ingredients := jsTrim ingredientsInput
    if ingredients = "" then
      .configError "please enter ingredients"
    else
      .request (geminiUrl (app.apiKey.getD "")) (buildPrompt ingredients dietary cuisine)

/-! ## JavaScript values and member access

Parsed JSON bodies are `JVal` values.  A possibly-`undefined` JS value
is an `Option JVal` (`none` is `undefined`).  Plain member access
(`a.b`, `a[0]`) throws a `TypeError` when the receiver is `undefined`
or `null`; optional chaining (`a?.b`, `a?.[0]`) short-circuits to
`undefined` instead. -/

inductive JVal where
  | null : JVal
  | jbool : Bool → JVal
  | jnum : Int → JVal
  | jstr : String → JVal
  | jarr : List JVal → JVal
  | jobj : List (String × JVal) → JVal

/-- Field lookup in an object literal (first binding wins). -/
def lookupField : List (String × JVal) → String → Option JVal
  | [], _ => none
  | (k, v) :: rest, key => if k = key then some v else lookupField rest key

/-- Strict member access `a.k`. -/
def getProp : Option JVal → String → Except String (Option JVal)
  | none, _ => .error "TypeError"
  | some .null, _ => .error "TypeError"
  | some (.jobj fs), k => .ok (lookupField fs k)
  | some _, _ => .ok none

/-- Strict index access `a[i]`. -/
def getIndex : Option JVal → Nat → Except String (Option JVal)
  | none, _ => .error "TypeError"
  | some .null, _ => .error "TypeError"
  | some (.jarr xs), i => .ok (xs.get? i)
  | some (.jstr s), i => .ok ((s.data.get? i).map fun c => .jstr (String.mk [c]))
  | some _, _ => .ok none

/-- Optional-chaining member access `a?.k`. -/
def optProp : Option JVal → String → Option JVal
  | none, _ => none
  | some .null, _ => none
  | some (.jobj fs), k => lookupField fs k
  | some _, _ => none

/-- Optional-chaining index access `a?.[i]`. -/
def optIndex : Option JVal → Nat → Option JVal
  | none, _ => none
  | some .null, _ => none
  | some (.jarr xs), i => xs.get? i
  | some (.jstr s), i => (s.data.get? i).map fun c => .jstr (String.mk [c])
  | some _, _ => none

/-- JS truthiness of a possibly-`undefined` value. -/
def jsTruthy : Option JVal → Bool
  | none => false
  | some .null => false
  | some (.jbool b) => b
  | some (.jnum n) => n != 0
  | some (.jstr s) => s != ""
  | some (.jarr _) => true
  | some (.jobj _) => true

mutual

/-- JS `ToString` on a defined value. -/
def jvalToStr : JVal → String
  | .null => "null"
  | .jbool b => if b then "true" else "false"
  | .jnum n => toString n
  | .jstr s => s
  | .jobj _ => "[object Object]"
  | .jarr xs => jarrToStr xs

/-- `Array.prototype.toString`: comma-joined elements. -/
def jarrToStr : List JVal → String
  | [] => ""
  | [x] => jelemToStr x
  | x :: rest => jelemToStr x ++ "," ++ jarrToStr rest

/-- Array elements stringify like `ToString` except `null` becomes empty. -/
def jelemToStr : JVal → String
  | .null => ""
  | .jbool b => if b then "true" else "false"
  | .jnum n => toString n
  | .jstr s => s
  | .jobj _ => "[object Object]"
  | .jarr xs => jarrToStr xs

end

/-- JS string interpolation `${v}` of a possibly-`undefined` value. -/
def jsToStr : Option JVal → String
  | none => "undefined"
  | some v => jvalToStr v

/-! ## Completion clients

An `HttpResponse` is the observable part of a settled `fetch` whose
body has parsed as JSON. -/

structure HttpResponse where
  ok : Bool
  status : Nat
  body : JVal

/-- The part of the `generateStory` extraction after `data.candidates`:
`?.[0]?.content?.parts?.[0]?.text` (optional chaining throughout). -/
def storyChainFrom (c : Option JVal) : Option JVal :=
  optProp (optIndex (optProp (optProp (optIndex c 0) "content") "parts") 0) "text"

/-- The optional-chaining extraction in `generateStory` (line 59 of
`model.js`): `data.candidates?.[0]?.content?.parts?.[0]?.text`.
The first access `data.candidates` is strict. -/
def storyChain (data : JVal) : Except String (Option JVal) :=
  (getProp (some data) "candidates").map storyChainFrom

/-- Response handling of `generateStory` (`model.js` lines 51–60):
the HTTP status is never inspected; the extracted text (or the
`"(no response)"` fallback for a falsy extraction) is returned. -/
def generateStory (r : HttpResponse) : Except String (Option JVal) :=
  (storyChain r.body).map fun t =>
    if jsTruthy t then t else some (.jstr "(no response)")

/-- The part of the `callGeminiAPI` extraction after `data.candidates`:
`[0].content.parts[0].text` (plain, throwing accesses). -/
def cookChainFrom (c : Option JVal) : Except String (Option JVal) := do
  let c0 ← getIndex c 0
  let ct ← getProp c0 "content"
  let ps ← getProp ct "parts"
  let p0 ← getIndex ps 0
  getProp p0 "text"

/-- The strict extraction in `callGeminiAPI` (line 146 of `script.js`):
`data.candidates[0].content.parts[0].text`. -/
def cookChain (data : JVal) : Except String (Option JVal) := do
  let c ← getProp (some data) "candidates"
  cookChainFrom c

/-- Response handling of `callGeminiAPI` (`script.js` lines 140–147):
on `!response.ok` it throws
`"API Error: " + (errorData.error.message || "Unknown error")`
(itself a `TypeError` when `errorData.error` is absent); on success it
returns the strict extraction. -/
def callGeminiAPI (r : HttpResponse) : Except String (Option JVal) :=
  if r.ok then
    cookChain r.body
  else
    match getProp (some r.body) "error" with
    | .error e => .error e
    | .ok errv =>
      match getProp errv "message" with
      | .error e => .error e
      | .ok msg =>
        .error ("API Error: " ++ (if jsTruthy msg then jsToStr msg else "Unknown error"))

/-- The HTTP 429 response of the spec scenario:
body `{"error": {"message": "quota exceeded"}}`. -/
def resp429 : HttpResponse :=
  { ok := false
    status := 429
    body := .jobj [("error", .jobj [("message", .jstr "quota exceeded")])] }

/-- A 200 response whose first part object lacks the `text` field:
body `{"candidates": [{"content": {"parts": [{}]}}]}`. -/
def respNoText : HttpResponse :=
  { ok := true
    status := 200
    body := .jobj [("candidates", .jarr [.jobj [("content", .jobj [("parts", .jarr [.jobj []])])]])] }

/-! ## Presentation formatter (`formatRecipe`, `script.js` lines 156–164)

The six `replace` calls are modeled over the list of lines of the
string (split at `'\n'`): every pattern with the `m` flag acts on each
line independently, and none of the matches or replacement texts can
contain a newline, so the line decomposition is exact.  Step 4 has no
`m` flag: its `^` anchors only at the start of the whole string. -/

/-- Split a character list at newlines (`n` separators give `n+1` lines). -/
def splitNL : List Char → List (List Char)
  | [] => [[]]
  | c :: rest =>
    if c = '\n' then [] :: splitNL rest
    else
      match splitNL rest with
      | [] => [[c]]
      | l :: ls => (c :: l) :: ls

/-- Join lines back with newlines. -/
def joinNL : List (List Char) → List Char
  | [] => []
  | [l] => l
  | l :: ls => l ++ '\n' :: joinNL ls

/-- The replacement text of step 1.  The second argument of
`recipe.replace(/(^| ) +/gm,)` is missing, so JavaScript stringifies
`undefined` and substitutes the nine characters `undefined` for every
match. -/
def undefStr : List Char := "undefined".data

/-- Scanner for the step-1 pattern `(^| ) +` away from the line start.
In mode `true` the scanner is absorbing the tail of a run whose
replacement text has already been emitted. -/
def sc : Bool → List Char → List Char
  | _, [] => []
  | true, ' ' :: rest => sc true rest
  | true, c :: rest => c :: sc false rest
  | false, ' ' :: ' ' :: rest => undefStr ++ sc true rest
  | false, ' ' :: rest => ' ' :: sc false rest
  | false, c :: rest => c :: sc false rest

/-- Step 1 on one line: `replace(/(^| ) +/gm,)` — a leading run of one
or more spaces, and every embedded run of two or more spaces, becomes
the text `undefined`. -/
def step1Line : List Char → List Char
  | [] => []
  | ' ' :: rest => undefStr ++ sc true rest
  | l => sc false l

/-- Step 2 on one line: `replace(/^-*/gm, "")` strips leading hyphens. -/
def step2Line (l : List Char) : List Char :=
  l.dropWhile (· == '-')

def strongO : List Char := "<strong>".data
def strongC : List Char := "</strong>".data

/-- Lazy search for the closing `**` of step 3: returns the minimal
nonempty span together with the characters after the closing pair. -/
def findClose : List Char → Option (List Char × List Char)
  | [] => none
  | c :: rest =>
    if isPre ['*', '*'] rest then some ([c], rest.drop 2)
    else (findClose rest).map fun p => (c :: p.1, p.2)

theorem findClose_eq :
    ∀ {l x r : List Char}, findClose l = some (x, r) →
      l = x ++ '*' :: '*' :: r ∧ x ≠ [] := by
  intro l
  induction l with
  | nil => intro x r h; simp [findClose] at h
  | cons c rest ih =>
    intro x r h
    rw [findClose] at h
    by_cases hp : isPre ['*', '*'] rest = true
    · rw [if_pos hp] at h
      obtain ⟨t, ht⟩ := isPre_exists hp
      simp only [Option.some.injEq, Prod.mk.injEq] at h
      obtain ⟨hx, hr⟩ := h
      subst hx; subst hr
      constructor
      · simp [ht]
      · simp
    · rw [if_neg hp] at h
      match hfc : findClose rest with
      | none => rw [hfc] at h; simp at h
      | some (x', r') =>
        rw [hfc] at h
        simp only [Option.map_some', Option.some.injEq, Prod.mk.injEq] at h
        obtain ⟨hx, hr⟩ := h
        subst hx; subst hr
        obtain ⟨hrest, hx'⟩ := ih hfc
        constructor
        · simp [hrest]
        · simp

/-- Step 3 with fuel (`fuel ≥` length of the list makes the fuel
irrelevant): `replace(/\*\*(.+?)\*\*/gm, "<strong>$1</strong>")`. -/
def boldAux : Nat → List Char → List Char
  | 0, l => l
  | _ + 1, [] => []
  | fuel + 1, '*' :: '*' :: rest =>
    (match findClose rest with
     | some (x, r) => strongO ++ x ++ strongC ++ boldAux fuel r
     | none => '*' :: boldAux fuel ('*' :: rest))
  | fuel + 1, c :: rest => c :: boldAux fuel rest

/-- Step 3 on one line. -/
def boldLine (l : List Char) : List Char :=
  boldAux l.length l

def h3O : List Char := "<h3 class=\x27recipe-title\x27>".data
def h3C : List Char := "</h3>".data

/-- Step 4 on the line list: `replace(/^(.+)/g, ...)` has no `m` flag,
so it wraps exactly the first line and only when it is nonempty. -/
def wrapH3 : List (List Char) → List (List Char)
  | [] => []
  | [] :: ls => [] :: ls
  | l :: ls => (h3O ++ l ++ h3C) :: ls

/-- Step 5 on one line: `replace(/^\*/gm, "•")`. -/
def step5Line : List Char → List Char
  | '*' :: rest => '•' :: rest
  | l => l

def pO : List Char := "<p>".data
def pC : List Char := "</p>".data

/-- Step 6 on one line: `replace(/^(.+)/gm, "<p>$1</p>")` wraps every
nonempty line. -/
def step6Line : List Char → List Char
  | [] => []
  | l => pO ++ l ++ pC

/-- The step-4 transformation of a single line (the head line). -/
def h3Head : List Char → List Char
  | [] => []
  | l => h3O ++ l ++ h3C

/-- Steps 1, 2, 3, 5, 6 on one line — everything except the heading
wrap, which the `g`-only anchor of step 4 confines to the first line. -/
def noHeadingLine (l : List Char) : List Char :=
  step6Line (step5Line (boldLine (step2Line (step1Line l))))

/-- All six steps on the head line. -/
def headLineFmt (l : List Char) : List Char :=
  step6Line (step5Line (h3Head (boldLine (step2Line (step1Line l)))))

/-- The whole pipeline on the line decomposition. -/
def formatLines (ls : List (List Char)) : List (List Char) :=
  ((wrapH3 (((ls.map step1Line).map step2Line).map boldLine)).map step5Line).map step6Line

/-- `formatRecipe` (`script.js` lines 156–164). -/
def formatRecipe (recipe : String) : String :=
  String.mk (joinNL (formatLines (splitNL recipe.data)))

/-! ## Character counting through the formatter steps

A character that is neither a space, a hyphen, an asterisk nor the
bullet glyph, and that does not occur in any replacement text, has its
per-line count preserved exactly by every step; the markers `'<'` (for
paragraph markup) and `'h'` (for heading markup) are tracked through
the steps that do insert them. -/

theorem count_sc (c : Char) (hc : c ≠ ' ') (hu : List.count c undefStr = 0) :
    ∀ (b : Bool) (l : List Char), List.count c (sc b l) = List.count c l := by
  intro b l
  induction b, l using sc.induct with
  | case1 b => simp [sc]
  | case2 rest ih => simpa [sc, List.count_cons, hc] using ih
  | case3 d rest hne ih => simp [sc, List.count_cons, ih]
  | case4 rest ih => simp [sc, List.count_append, List.count_cons, hc, hu, ih]
  | case5 rest hne ih => simp [sc, List.count_cons, ih]
  | case6 d rest h1 h2 ih => simp [sc, List.count_cons, ih]

theorem count_step1Line (c : Char) (hc : c ≠ ' ') (hu : List.count c undefStr = 0)
    (l : List Char) : List.count c (step1Line l) = List.count c l := by
  rw [step1Line.eq_def]
  split
  · rfl
  · next rest =>
    simp [List.count_append, List.count_cons, hc, hu, count_sc c hc hu]
  · exact count_sc c hc hu false l

theorem count_step2Line (c : Char) (hc : c ≠ '-') (l : List Char) :
    List.count c (step2Line l) = List.count c l := by
  induction l with
  | nil => rfl
  | cons d rest ih =>
    by_cases hd : d = '-'
    · subst hd; simpa [step2Line, List.count_cons, hc] using ih
    · simp [step2Line, List.dropWhile_cons, hd]

theorem count_boldAux_ge (c : Char) (hs : c ≠ '*') :
    ∀ (fuel : Nat) (l : List Char), l.length ≤ fuel →
      List.count c l ≤ List.count c (boldAux fuel l) := by
  intro fuel l
  induction fuel, l using boldAux.induct with
  | case1 l => intro _; simp [boldAux]
  | case2 n => intro _; simp [boldAux]
  | case3 fuel rest x r heq ih =>
    intro hl
    obtain ⟨hrest, hx⟩ := findClose_eq heq
    have hxlen : 1 ≤ x.length := by
      cases x with
      | nil => exact absurd rfl hx
      | cons a as => simp
    have hlen2 : rest.length = x.length + 2 + r.length := by
      subst hrest; simp [List.length_append]; omega
    simp only [List.length_cons] at hl
    have ihr := ih (by omega)
    have hcrest : List.count c rest = List.count c x + List.count c r := by
      subst hrest
      simp [List.count_append, List.count_cons, hs]
    simp only [boldAux, heq]
    simp [List.count_append, List.count_cons, hs, hcrest]
    omega
  | case4 fuel rest heq ih =>
    intro hl
    simp only [List.length_cons] at hl
    have ihr := ih (by simp; omega)
    simp only [boldAux, heq]
    simp only [List.count_cons, beq_iff_eq] at ihr ⊢
    simp [hs] at ihr ⊢
    omega
  | case5 fuel d rest hne ih =>
    intro hl
    simp only [List.length_cons] at hl
    have ihr := ih (by omega)
    have hb : boldAux (fuel + 1) (d :: rest) = d :: boldAux fuel rest := by
      rw [boldAux.eq_def]
      split
      · omega
      · simp_all
      · next heq2 =>
        exfalso
        injection heq2 with hd1 hd2
        exact hne _ hd1 hd2
      · simp_all
    rw [hb]
    simp only [List.count_cons]
    omega

theorem count_boldAux_eq (c : Char) (hs : c ≠ '*')
    (ho : List.count c strongO = 0) (hc2 : List.count c strongC = 0) :
    ∀ (fuel : Nat) (l : List Char), l.length ≤ fuel →
      List.count c (boldAux fuel l) = List.count c l := by
  intro fuel l
  induction fuel, l using boldAux.induct with
  | case1 l => intro _; simp [boldAux]
  | case2 n => intro _; simp [boldAux]
  | case3 fuel rest x r heq ih =>
    intro hl
    obtain ⟨hrest, hx⟩ := findClose_eq heq
    have hxlen : 1 ≤ x.length := by
      cases x with
      | nil => exact absurd rfl hx
      | cons a as => simp
    have hlen2 : rest.length = x.length + 2 + r.length := by
      subst hrest; simp [List.length_append]; omega
    simp only [List.length_cons] at hl
    have ihr := ih (by omega)
    have hcrest : List.count c rest = List.count c x + List.count c r := by
      subst hrest
      simp [List.count_append, List.count_cons, hs]
    simp only [boldAux, heq]
    simp [List.count_append, List.count_cons, hs, ho, hc2, ihr, hcrest]
  | case4 fuel rest heq ih =>
    intro hl
    simp only [List.length_cons] at hl
    have ihr := ih (by simp; omega)
    simp only [boldAux, heq]
    simp only [List.count_cons, beq_iff_eq] at ihr ⊢
    simp [hs] at ihr ⊢
    omega
  | case5 fuel d rest hne ih =>
    intro hl
    simp only [List.length_cons] at hl
    have ihr := ih (by omega)
    have hb : boldAux (fuel + 1) (d :: rest) = d :: boldAux fuel rest := by
      rw [boldAux.eq_def]
      split
      · omega
      · simp_all
      · next heq2 =>
        exfalso
        injection heq2 with hd1 hd2
        exact hne _ hd1 hd2
      · simp_all
    rw [hb]
    simp only [List.count_cons]
    omega

theorem count_boldLine_ge (c : Char) (hs : c ≠ '*') (l : List Char) :
    List.count c l ≤ List.count c (boldLine l) :=
  count_boldAux_ge c hs l.length l (Nat.le_refl _)

theorem count_boldLine_eq (c : Char) (hs : c ≠ '*')
    (ho : List.count c strongO = 0) (hc2 : List.count c strongC = 0) (l : List Char) :
    List.count c (boldLine l) = List.count c l :=
  count_boldAux_eq c hs ho hc2 l.length l (Nat.le_refl _)

theorem count_step5Line (c : Char) (h1 : c ≠ '*') (h2 : c ≠ '•') (l : List Char) :
    List.count c (step5Line l) = List.count c l := by
  rw [step5Line.eq_def]
  split
  · simp [List.count_cons, h1, h2]
  · rfl

theorem count_step6Line (c : Char) (l : List Char) :
    List.count c (step6Line l)
      = List.count c l + (if l = [] then 0 else List.count c pO + List.count c pC) := by
  rw [step6Line.eq_def]
  split
  · rfl
  · next h =>
    rw [if_neg h]
    simp [List.count_append]
    omega

theorem count_h3Head (c : Char) (l : List Char) :
    List.count c (h3Head l)
      = List.count c l + (if l = [] then 0 else List.count c h3O + List.count c h3C) := by
  rw [h3Head.eq_def]
  split
  · rfl
  · next h =>
    rw [if_neg h]
    simp [List.count_append]
    omega

/-! ## Lines: splitting and joining -/

theorem splitNL_ne_nil : ∀ l : List Char, splitNL l ≠ [] := by
  intro l
  induction l with
  | nil => simp [splitNL]
  | cons c rest ih =>
    by_cases hc : c = '\n'
    · simp [splitNL, hc]
    · rw [splitNL, if_neg hc]
      cases hsp : splitNL rest with
      | nil => simp
      | cons a as => simp

theorem mem_splitNL_count : ∀ (l : List Char), ∀ m ∈ splitNL l, List.count '\n' m = 0 := by
  intro l
  induction l with
  | nil => intro m hm; simp [splitNL] at hm; simp [hm]
  | cons c rest ih =>
    intro m hm
    by_cases hc : c = '\n'
    · rw [splitNL, if_pos hc] at hm
      rcases List.mem_cons.mp hm with h | h
      · simp [h]
      · exact ih m h
    · rw [splitNL, if_neg hc] at hm
      cases hsp : splitNL rest with
      | nil => exact absurd hsp (splitNL_ne_nil rest)
      | cons a as =>
        rw [hsp] at hm
        rcases List.mem_cons.mp hm with h | h
        · subst h
          have ha : List.count '\n' a = 0 := ih a (by rw [hsp]; exact List.mem_cons_self a as)
          simp [List.count_cons, hc, ha]
        · exact ih m (by rw [hsp]; exact List.mem_cons_of_mem a h)

theorem splitNL_of_count (l : List Char) (h : List.count '\n' l = 0) : splitNL l = [l] := by
  induction l with
  | nil => rfl
  | cons c rest ih =>
    by_cases hc : c = '\n'
    · subst hc; simp [List.count_cons] at h
    · have hrest : List.count '\n' rest = 0 := by
        rwa [List.count_cons_of_ne (fun hcc => hc hcc.symm)] at h
      rw [splitNL, if_neg hc, ih hrest]

theorem splitNL_append (l t : List Char) (h : List.count '\n' l = 0) :
    splitNL (l ++ '\n' :: t) = l :: splitNL t := by
  induction l with
  | nil => simp [splitNL]
  | cons c rest ih =>
    by_cases hc : c = '\n'
    · subst hc; simp [List.count_cons] at h
    · have hrest : List.count '\n' rest = 0 := by
        rwa [List.count_cons_of_ne (fun hcc => hc hcc.symm)] at h
      rw [List.cons_append, splitNL, if_neg hc, ih hrest]

theorem splitNL_joinNL :
    ∀ (ls : List (List Char)), ls ≠ [] → (∀ m ∈ ls, List.count '\n' m = 0) →
      splitNL (joinNL ls) = ls := by
  intro ls
  induction ls with
  | nil => intro h; exact absurd rfl h
  | cons a as ih =>
    intro _ hm
    cases as with
    | nil =>
      rw [joinNL]
      exact splitNL_of_count a (hm a (List.mem_singleton.mpr rfl))
    | cons b bs =>
      have hj : joinNL (a :: b :: bs) = a ++ '\n' :: joinNL (b :: bs) := rfl
      rw [hj, splitNL_append a _ (hm a (List.mem_cons_self a _))]
      rw [ih (List.cons_ne_nil b bs) (fun m hmem => hm m (List.mem_cons_of_mem a hmem))]

theorem count_joinNL (c : Char) (hc : c ≠ '\n') :
    ∀ ls : List (List Char), List.count c (joinNL ls) = (ls.map (List.count c)).sum := by
  intro ls
  induction ls with
  | nil => rfl
  | cons a as ih =>
    cases as with
    | nil => simp [joinNL]
    | cons b bs =>
      have hj : joinNL (a :: b :: bs) = a ++ '\n' :: joinNL (b :: bs) := rfl
      rw [hj, List.count_append, List.count_cons_of_ne hc, ih]
      simp

/-! ## The formatter pipeline on lines -/

theorem wrapH3_cons (x : List Char) (ls : List (List Char)) :
    wrapH3 (x :: ls) = h3Head x :: ls := by
  cases x <;> rfl

theorem formatLines_cons (m : List Char) (rest : List (List Char)) :
    formatLines (m :: rest) = headLineFmt m :: rest.map noHeadingLine := by
  simp only [formatLines, List.map_cons, wrapH3_cons, List.map_map]
  rfl

theorem noHeadingLine_nil : noHeadingLine [] = [] := rfl

theorem count_noHeadingLine_inert (c : Char) (hsp : c ≠ ' ') (hda : c ≠ '-')
    (hst : c ≠ '*') (hbu : c ≠ '•') (hu : List.count c undefStr = 0)
    (ho : List.count c strongO = 0) (hc2 : List.count c strongC = 0)
    (hp1 : List.count c pO = 0) (hp2 : List.count c pC = 0) (l : List Char) :
    List.count c (noHeadingLine l) = List.count c l := by
  unfold noHeadingLine
  rw [count_step6Line, count_step5Line c hst hbu, count_boldLine_eq c hst ho hc2,
    count_step2Line c hda, count_step1Line c hsp hu, hp1, hp2]
  split <;> rfl

theorem count_headLineFmt_inert (c : Char) (hsp : c ≠ ' ') (hda : c ≠ '-')
    (hst : c ≠ '*') (hbu : c ≠ '•') (hu : List.count c undefStr = 0)
    (ho : List.count c strongO = 0) (hc2 : List.count c strongC = 0)
    (hp1 : List.count c pO = 0) (hp2 : List.count c pC = 0)
    (h31 : List.count c h3O = 0) (h32 : List.count c h3C = 0) (l : List Char) :
    List.count c (headLineFmt l) = List.count c l := by
  unfold headLineFmt
  rw [count_step6Line, count_step5Line c hst hbu, count_h3Head,
    count_boldLine_eq c hst ho hc2, count_step2Line c hda, count_step1Line c hsp hu,
    hp1, hp2, h31, h32]
  split <;> split <;> rfl

theorem count_headLineFmt_le (c : Char) (hsp : c ≠ ' ') (hda : c ≠ '-')
    (hst : c ≠ '*') (hbu : c ≠ '•') (hu : List.count c undefStr = 0)
    (ho : List.count c strongO = 0) (hc2 : List.count c strongC = 0)
    (hp1 : List.count c pO = 0) (hp2 : List.count c pC = 0) (l : List Char) :
    List.count c (headLineFmt l)
      ≤ List.count c l + (List.count c h3O + List.count c h3C) := by
  unfold headLineFmt
  rw [count_step6Line, count_step5Line c hst hbu, count_h3Head,
    count_boldLine_eq c hst ho hc2, count_step2Line c hda, count_step1Line c hsp hu,
    hp1, hp2]
  split <;> split <;> omega

/-! ## Tracking `<` through the pipeline (paragraph markup) -/

theorem countLt_undefStr : List.count '<' undefStr = 0 := by decide

theorem countLt_pO : List.count '<' pO = 1 := by decide

theorem countLt_pC : List.count '<' pC = 1 := by decide

theorem countLt_noHeadingLine_ge (l : List Char) :
    List.count '<' l ≤ List.count '<' (noHeadingLine l) := by
  unfold noHeadingLine
  rw [count_step6Line, count_step5Line '<' (by decide) (by decide)]
  have hb := count_boldLine_ge '<' (by decide) (step2Line (step1Line l))
  rw [count_step2Line '<' (by decide), count_step1Line '<' (by decide) countLt_undefStr] at hb
  split <;> omega

theorem countLt_noHeadingLine_gain (l : List Char) (h : 1 ≤ List.count '<' l) :
    List.count '<' l + 2 ≤ List.count '<' (noHeadingLine l) := by
  unfold noHeadingLine
  have hb := count_boldLine_ge '<' (by decide) (step2Line (step1Line l))
  rw [count_step2Line '<' (by decide), count_step1Line '<' (by decide) countLt_undefStr] at hb
  have hmid : 1 ≤ List.count '<' (step5Line (boldLine (step2Line (step1Line l)))) := by
    rw [count_step5Line '<' (by decide) (by decide)]
    omega
  have hne : step5Line (boldLine (step2Line (step1Line l))) ≠ [] := by
    intro hcontra
    rw [hcontra] at hmid
    simp at hmid
  rw [count_step6Line, if_neg hne, count_step5Line '<' (by decide) (by decide),
    countLt_pO, countLt_pC]
  omega

theorem countLt_headLineFmt_ge (l : List Char) :
    List.count '<' l ≤ List.count '<' (headLineFmt l) := by
  unfold headLineFmt
  have hb := count_boldLine_ge '<' (by decide) (step2Line (step1Line l))
  rw [count_step2Line '<' (by decide), count_step1Line '<' (by decide) countLt_undefStr] at hb
  rw [count_step6Line, count_step5Line '<' (by decide) (by decide), count_h3Head]
  split <;> omega

theorem countLt_headLineFmt_gain (l : List Char) (h : 1 ≤ List.count '<' l) :
    List.count '<' l + 2 ≤ List.count '<' (headLineFmt l) := by
  unfold headLineFmt
  have hb := count_boldLine_ge '<' (by decide) (step2Line (step1Line l))
  rw [count_step2Line '<' (by decide), count_step1Line '<' (by decide) countLt_undefStr] at hb
  have hne : boldLine (step2Line (step1Line l)) ≠ [] := by
    intro hcontra
    rw [hcontra] at hb
    simp at hb
    omega
  rw [count_step6Line, count_step5Line '<' (by decide) (by decide), count_h3Head,
    if_neg hne]
  have h31 : List.count '<' h3O = 1 := by decide
  have h32 : List.count '<' h3C = 1 := by decide
  rw [h31, h32]
  split <;> omega

/-! ## Assembling the pipeline facts -/

theorem formatLines_noNL (ls : List (List Char))
    (h : ∀ m ∈ ls, List.count '\n' m = 0) :
    ∀ m ∈ formatLines ls, List.count '\n' m = 0 := by
  cases ls with
  | nil =>
    intro m hm
    rw [show formatLines ([] : List (List Char)) = [] from rfl] at hm
    simp at hm
  | cons a as =>
    rw [formatLines_cons]
    intro m hm
    rcases List.mem_cons.mp hm with h1 | h1
    · subst h1
      rw [count_headLineFmt_inert '\n' (by decide) (by decide) (by decide) (by decide)
        (by decide) (by decide) (by decide) (by decide) (by decide) (by decide) (by decide)]
      exact h a (List.mem_cons_self a as)
    · obtain ⟨b, hb, rfl⟩ := List.mem_map.mp h1
      rw [count_noHeadingLine_inert '\n' (by decide) (by decide) (by decide) (by decide)
        (by decide) (by decide) (by decide) (by decide) (by decide)]
      exact h b (List.mem_cons_of_mem a hb)

theorem formatLines_ne_nil (ls : List (List Char)) (h : ls ≠ []) :
    formatLines ls ≠ [] := by
  cases ls with
  | nil => exact absurd rfl h
  | cons a as => rw [formatLines_cons]; simp

theorem formatRecipe_data (s : String) :
    (formatRecipe s).data = joinNL (formatLines (splitNL s.data)) := rfl

/-- The lines of a formatted string are exactly the formatted lines of
the input: the pipeline neither creates nor destroys newlines. -/
theorem splitNL_formatRecipe (s : String) :
    splitNL ((formatRecipe s).data) = formatLines (splitNL s.data) := by
  rw [formatRecipe_data]
  exact splitNL_joinNL _ (formatLines_ne_nil _ (splitNL_ne_nil _))
    (formatLines_noNL _ (mem_splitNL_count _))

theorem sum_count_noHeadingLine_ge (ls : List (List Char)) :
    (ls.map (List.count '<')).sum
      ≤ (ls.map (fun l => List.count '<' (noHeadingLine l))).sum := by
  induction ls with
  | nil => simp
  | cons a as ih =>
    simp only [List.map_cons, List.sum_cons]
    have := countLt_noHeadingLine_ge a
    omega

theorem sum_count_noHeadingLine_gain (ls : List (List Char)) (l₀ : List Char)
    (hmem : l₀ ∈ ls) (h : 1 ≤ List.count '<' l₀) :
    (ls.map (List.count '<')).sum + 2
      ≤ (ls.map (fun l => List.count '<' (noHeadingLine l))).sum := by
  induction ls with
  | nil => simp at hmem
  | cons a as ih =>
    simp only [List.map_cons, List.sum_cons]
    rcases List.mem_cons.mp hmem with h1 | h1
    · subst h1
      have h2 := countLt_noHeadingLine_gain l₀ h
      have h3 := sum_count_noHeadingLine_ge as
      omega
    · have h2 := countLt_noHeadingLine_ge a
      have h3 := ih h1
      omega

theorem getD_map_noHeadingLine (ls : List (List Char)) (j : Nat) :
    (ls.map noHeadingLine).getD j [] = noHeadingLine (ls.getD j []) := by
  induction ls generalizing j with
  | nil => simp [noHeadingLine_nil]
  | cons a as ih =>
    cases j with
    | zero => simp
    | succ n => simpa using ih n

/-! ## Relating strict access to optional chaining -/

theorem getProp_rel (v : Option JVal) (k : String) :
    (getProp v k = .error "TypeError" ∧ optProp v k = none)
      ∨ getProp v k = .ok (optProp v k) := by
  cases v with
  | none => left; exact ⟨rfl, rfl⟩
  | some jv => cases jv <;> simp [getProp, optProp]

theorem getIndex_rel (v : Option JVal) (i : Nat) :
    (getIndex v i = .error "TypeError" ∧ optIndex v i = none)
      ∨ getIndex v i = .ok (optIndex v i) := by
  cases v with
  | none => left; exact ⟨rfl, rfl⟩
  | some jv => cases jv <;> simp [getIndex, optIndex]

@[simp] theorem exceptBindError (e : String) (f : Option JVal → Except String (Option JVal)) :
    (Except.error e >>= f) = Except.error e := rfl

@[simp] theorem exceptBindOk (a : Option JVal) (f : Option JVal → Except String (Option JVal)) :
    (Except.ok a >>= f) = f a := rfl

@[simp] theorem exceptMapOk {α β : Type} (f : α → β) (a : α) :
    Except.map f (Except.ok a : Except String α) = .ok (f a) := rfl

@[simp] theorem exceptMapError {α β : Type} (f : α → β) (e : String) :
    Except.map f (Except.error e : Except String α) = .error e := rfl

/-- Whenever the optional-chaining extraction comes up absent, the
strict extraction either throws a `TypeError` or returns `undefined`
(the latter exactly when only the final `text` field is missing). -/
theorem cookChainFrom_of_absent (c : Option JVal) (h : storyChainFrom c = none) :
    cookChainFrom c = .error "TypeError" ∨ cookChainFrom c = .ok none := by
  rw [storyChainFrom] at h
  rcases getIndex_rel c 0 with ⟨he, _⟩ | he₀
  · left; simp [cookChainFrom, he]
  · rcases getProp_rel (optIndex c 0) "content" with ⟨he, _⟩ | he₁
    · left; simp [cookChainFrom, he₀, he]
    · rcases getProp_rel (optProp (optIndex c 0) "content") "parts" with ⟨he, _⟩ | he₂
      · left; simp [cookChainFrom, he₀, he₁, he]
      · rcases getIndex_rel (optProp (optProp (optIndex c 0) "content") "parts") 0 with
          ⟨he, _⟩ | he₃
        · left; simp [cookChainFrom, he₀, he₁, he₂, he]
        · rcases getProp_rel
              (optIndex (optProp (optProp (optIndex c 0) "content") "parts") 0) "text" with
            ⟨he, _⟩ | he₄
          · left; simp [cookChainFrom, he₀, he₁, he₂, he₃, he]
          · right; rw [h] at he₄; simp [cookChainFrom, he₀, he₁, he₂, he₃, he₄]

/-! ## The claims -/

/-- C1 (counterexample): on the HTTP 429 response with body
`{"error": {"message": "quota exceeded"}}`, the storyteller's
`generateStory` does NOT fail: it never reads the HTTP status, finds no
`candidates` in the body and returns the `"(no response)"` placeholder,
while the recipe app's `callGeminiAPI` does fail with the provider's
message.  This refutes the claim that both completion clients fail with
an `ApiError` on a non-2xx status. -/
theorem claim_C1_counterexample :
    generateStory resp429 = .ok (some (.jstr "(no response)"))
      ∧ callGeminiAPI resp429 = .error ("API Error: " ++ "quota exceeded") :=
  ⟨rfl, rfl⟩

/-- C1 (amended): only the recipe app's `callGeminiAPI` fails on a
non-success HTTP response, with the provider's error message when the
body carries a nonempty one; the storyteller's `generateStory` ignores
the HTTP status entirely (its result depends only on the body). -/
theorem claim_C1 (r : HttpResponse) (fs e : List (String × JVal)) (msg : String)
    (hok : r.ok = false) (hbody : r.body = .jobj fs)
    (herr : lookupField fs "error" = some (.jobj e))
    (hmsg : lookupField e "message" = some (.jstr msg)) (hne : msg ≠ "") :
    callGeminiAPI r = .error ("API Error: " ++ msg)
      ∧ generateStory r = generateStory { r with ok := true, status := 200 } := by
  constructor
  · simp [callGeminiAPI, hok, hbody, getProp, herr, hmsg, jsTruthy, jsToStr, jvalToStr, hne]
  · rfl

/-- C1 (witness for the amended claim at the 429 scenario). -/
theorem claim_C1_witness :
    callGeminiAPI resp429 = .error ("API Error: " ++ "quota exceeded")
      ∧ generateStory resp429 = generateStory { resp429 with ok := true, status := 200 } :=
  claim_C1 resp429 [("error", .jobj [("message", .jstr "quota exceeded")])]
    [("message", .jstr "quota exceeded")] "quota exceeded" rfl rfl rfl rfl (by decide)

/-- C2: after `initializeStory s` and any sequence of `appendLine`
calls, `resetStory` both sets the story state to `s` and returns `s` —
the string captured by the most recent `initializeStory`. -/
theorem claim_C2 (st : StoryModel) (s : String) (ops : List (String × String)) :
    (resetStory (ops.foldl (fun a p => (appendLine a p.1 p.2).1) (initializeStory st s).1)).1.story = s
      ∧ (resetStory (ops.foldl (fun a p => (appendLine a p.1 p.2).1) (initializeStory st s).1)).2 = s := by
  have h : (ops.foldl (fun a p => (appendLine a p.1 p.2).1) (initializeStory st s).1).initialStory = s := by
    simpa [initializeStory] using foldl_appendLine_initialStory ops (initializeStory st s).1
  exact ⟨h, h⟩

/-- C3 (the code, at the failing input): an `AICookApp` constructed
while a key is persisted under `geminiApiKey` still rejects
`generateRecipe` with the missing-API-key alert, because the
constructor stores the key in the property `apikey` while every reader
uses `apiKey`; `loadApiKey` does not even mark the key as saved.  This
contradicts the claim that the persisted key is read on every
completion request. -/
theorem claim_C3 (storedKey : Option String) (ing d c : String) :
    generateRecipe (constructApp storedKey) ing d c
        = .configError "please enter your Gemini API Key"
      ∧ loadApiKey (constructApp storedKey) = false :=
  ⟨rfl, rfl⟩

/-- C5 (counterexample): on a successful response whose first part
object exists but lacks the `text` field, the recipe app's
`callGeminiAPI` does NOT raise — it returns normally with the JS value
`undefined` — refuting the claim that it always fails when the first
text part is absent (the storyteller returns its placeholder, as
claimed). -/
theorem claim_C5_counterexample :
    callGeminiAPI respNoText = .ok none
      ∧ generateStory respNoText = .ok (some (.jstr "(no response)")) :=
  ⟨rfl, rfl⟩

/-- C5 (amended): on a successful response whose first candidate's
first text part is absent, the storyteller returns the literal
`"(no response)"` placeholder, while the recipe app's `callGeminiAPI`
raises a `TypeError` when an enclosing level is missing but returns the
JS value `undefined` (without raising) when only the final `text` field
is missing. -/
theorem claim_C5 (r : HttpResponse) (c : Option JVal) (hok : r.ok = true)
    (hc : getProp (some r.body) "candidates" = .ok c)
    (habsent : storyChainFrom c = none) :
    generateStory r = .ok (some (.jstr "(no response)"))
      ∧ (callGeminiAPI r = .error "TypeError" ∨ callGeminiAPI r = .ok none) := by
  constructor
  · simp [generateStory, storyChain, hc, habsent, jsTruthy]
  · have h := cookChainFrom_of_absent c habsent
    rcases h with h | h
    · left; simp [callGeminiAPI, hok, cookChain, hc, h]
    · right; simp [callGeminiAPI, hok, cookChain, hc, h]

/-- C5 (witness at the missing-`text` response). -/
theorem claim_C5_witness :
    generateStory respNoText = .ok (some (.jstr "(no response)"))
      ∧ (callGeminiAPI respNoText = .error "TypeError"
          ∨ callGeminiAPI respNoText = .ok none) :=
  claim_C5 respNoText
    (some (.jarr [.jobj [("content", .jobj [("parts", .jarr [.jobj []])])]])) rfl rfl rfl

/-- C6: for ingredients `"eggs, flour"`, dietary `"vegetarian"` and an
empty cuisine selection, the built prompt contains `"eggs, flour"` and
`"Make it vegetarian."`, and contains no cuisine clause (`"uisine"`
never occurs, so neither `cuisine` nor `Cuisine` is mentioned). -/
theorem claim_C6 :
    strContains (buildPrompt "eggs, flour" "vegetarian" "") "eggs, flour" = true
      ∧ strContains (buildPrompt "eggs, flour" "vegetarian" "") "Make it vegetarian." = true
      ∧ strContains (buildPrompt "eggs, flour" "vegetarian" "") "uisine" = false := by
  refine ⟨?_, ?_, ?_⟩ <;> decide

/-- C7: when the API key input is empty or whitespace-only, `saveApiKey`
surfaces the configuration alert and leaves the app fields and the
persisted `localStorage` entry exactly as they were. -/
theorem claim_C7 (app : CookApp) (storage : Option String) (input : String)
    (h : jsTrim input = "") :
    saveApiKey app storage input = (app, storage, some "please enter your Gemini API Key") := by
  simp [saveApiKey, h]

/-- C7 (witness at a whitespace-only input). -/
theorem claim_C7_witness :
    saveApiKey (constructApp none) none "   "
      = (constructApp none, none, some "please enter your Gemini API Key") :=
  claim_C7 (constructApp none) none "   " (by decide)

/-- C4 (the code, at the failing input): the first formatter step does
not merely collapse whitespace — because the `replace` call at line 157
has no replacement argument, each matched run is replaced by the text
`undefined`, introducing new non-whitespace characters and fusing the
surrounding words.  Shown on the embedded line substitution and on the
whole pipeline. -/
theorem claim_C4 :
    step1Line ("a  b".data) = ("aundefinedb".data)
      ∧ step1Line ("  hello".data) = ("undefinedhello".data)
      ∧ formatRecipe "a  b" = "<p><h3 class=\x27recipe-title\x27>aundefinedb</h3></p>" :=
  ⟨rfl, rfl, rfl⟩

/-- C9: every exported operation of the story model either leaves the
transcript unchanged, extends it by appending a nonempty suffix (so the
previous transcript is a proper prefix of the new one — `appendLine`),
or sets it exactly to the current initial snapshot (`resetStory`, and
`initializeStory` which refreshes the snapshot). -/
theorem claim_C9 (st : StoryModel) (op : StoryOp) :
    (storyStep st op).story = st.story
      ∨ (∃ ext : String, ext ≠ "" ∧ (storyStep st op).story = st.story ++ ext)
      ∨ (storyStep st op).story = (storyStep st op).initialStory := by
  cases op with
  | append role text =>
    right; left
    refine ⟨"\n" ++ role ++ ": " ++ text, ?_, ?_⟩
    · intro hcontra
      have hl := congrArg String.length hcontra
      rw [String.length_append, String.length_append, String.length_append] at hl
      have h1 : "\n".length = 1 := rfl
      have h2 : ": ".length = 2 := rfl
      have h3 : "".length = 0 := rfl
      omega
    · simp [storyStep, appendLine, String.append_assoc]
  | reset => right; right; rfl
  | initStory t => right; right; rfl
  | readStory => left; rfl
  | setLang l n => left; rfl
  | readLang => left; rfl
  | genStory k => left; rfl

/-- C8: the formatter is not idempotent with respect to markup
wrapping: whenever the formatted output contains a paragraph-wrapped
line (a line beginning with `<p>`), formatting the output again wraps
it again, so the two results differ.  Proved by counting `'<'`
characters: a second pass adds paragraph markup around every nonempty
line while no step ever removes a `'<'`. -/
theorem claim_C8 (s : String)
    (h : ∃ l ∈ splitNL ((formatRecipe s).data), isPre pO l = true) :
    formatRecipe (formatRecipe s) ≠ formatRecipe s := by
  intro heq
  obtain ⟨l₀, hl₀mem, hl₀pre⟩ := h
  rw [splitNL_formatRecipe] at hl₀mem
  have hcl₀ : 1 ≤ List.count '<' l₀ := by
    obtain ⟨t, ht⟩ := isPre_exists hl₀pre
    rw [ht, List.count_append, countLt_pO]
    omega
  have hdata := congrArg String.data heq
  rw [formatRecipe_data (formatRecipe s), splitNL_formatRecipe, formatRecipe_data s] at hdata
  have hcount := congrArg (List.count '<') hdata
  rw [count_joinNL '<' (by decide), count_joinNL '<' (by decide)] at hcount
  have hMne : formatLines (splitNL s.data) ≠ [] :=
    formatLines_ne_nil _ (splitNL_ne_nil _)
  obtain ⟨m, rest, hMeq⟩ : ∃ m rest, formatLines (splitNL s.data) = m :: rest := by
    cases hMcase : formatLines (splitNL s.data) with
    | nil => exact absurd hMcase hMne
    | cons m rest => exact ⟨m, rest, rfl⟩
  rw [hMeq] at hl₀mem hcount
  rw [formatLines_cons] at hcount
  simp only [List.map_cons, List.sum_cons, List.map_map, Function.comp_def] at hcount
  rcases List.mem_cons.mp hl₀mem with hl | hl
  · subst hl
    have h1 := countLt_headLineFmt_gain l₀ hcl₀
    have h2 := sum_count_noHeadingLine_ge rest
    omega
  · have h1 := countLt_headLineFmt_ge m
    have h2 := sum_count_noHeadingLine_gain rest l₀ hl hcl₀
    omega

/-- C8 (witness): the formatted output of `"Title"` is a single
paragraph-wrapped heading line, and a second pass changes it. -/
theorem claim_C8_witness :
    formatRecipe (formatRecipe "Title") ≠ formatRecipe "Title" :=
  claim_C8 "Title" (by decide)

/-- C10: the heading substitution of the formatter anchors only at the
start of the whole text.  Every line after the first is transformed by
exactly the heading-free pipeline (`noHeadingLine`), which preserves the
number of `'h'` characters — so no heading markup (whose tags each
contain an `'h'`) is ever added there — while the first line gains at
most the two `'h'`s of one single pair of heading tags. -/
theorem claim_C10 (s : String) (i : Nat) (hi : 1 ≤ i) :
    ((splitNL ((formatRecipe s).data)).getD i []
        = noHeadingLine ((splitNL s.data).getD i []))
      ∧ (∀ l : List Char, List.count 'h' (noHeadingLine l) = List.count 'h' l)
      ∧ List.count 'h' ((splitNL ((formatRecipe s).data)).getD 0 [])
          ≤ List.count 'h' ((splitNL s.data).getD 0 []) + 2 := by
  rw [splitNL_formatRecipe]
  obtain ⟨m, rest, hMeq⟩ : ∃ m rest, splitNL s.data = m :: rest := by
    cases hMcase : splitNL s.data with
    | nil => exact absurd hMcase (splitNL_ne_nil _)
    | cons m rest => exact ⟨m, rest, rfl⟩
  rw [hMeq, formatLines_cons]
  refine ⟨?_, ?_, ?_⟩
  · cases i with
    | zero => omega
    | succ n =>
      simp only [List.getD_cons_succ]
      exact getD_map_noHeadingLine rest n
  · intro l
    exact count_noHeadingLine_inert 'h' (by decide) (by decide) (by decide) (by decide)
      (by decide) (by decide) (by decide) (by decide) (by decide) l
  · simp only [List.getD_cons_zero]
    have hle := count_headLineFmt_le 'h' (by decide) (by decide) (by decide) (by decide)
      (by decide) (by decide) (by decide) (by decide) (by decide) m
    have h1 : List.count 'h' h3O = 1 := by decide
    have h2 : List.count 'h' h3C = 1 := by decide
    omega

/-- C10 (witness at a two-line input). -/
theorem claim_C10_witness :
    ((splitNL ((formatRecipe "x\ny").data)).getD 1 []
        = noHeadingLine ((splitNL "x\ny".data).getD 1 []))
      ∧ (∀ l : List Char, List.count 'h' (noHeadingLine l) = List.count 'h' l)
      ∧ List.count 'h' ((splitNL ((formatRecipe "x\ny").data)).getD 0 [])
          ≤ List.count 'h' ((splitNL "x\ny".data).getD 0 []) + 2 :=
  claim_C10 "x\ny" 1 (by decide)

end PublicHtml
